import Mathlib

/-
Verification of the OCR roster normalizer (src/normalize.py).

Strings are modelled as `List Char` (Python `str` is a sequence of code
points).  Each regular expression of the source is embedded as a
hand-derived deterministic matcher with Python `re` leftmost / greedy /
backtracking semantics; the derivations are recorded in comments next to
each matcher.  All functions are total and executable.
-/

/- ### Character classes

`isPyDigit` models Python's `\d` (Unicode decimal digits); the repertoire
relevant to this program is ASCII `0-9` and full-width `０-９`.
`isPySpace` models `\s` (and `str.strip`'s whitespace) on the characters
this program can meet: ASCII whitespace and the ideographic space U+3000.
`isPyWord` models `\w` (Unicode word characters) on the repertoire of the
source documents: ASCII alphanumerics, underscore, kana, CJK ideographs. -/

def isAsciiDigit (c : Char) : Bool := '0' ≤ c && c ≤ '9'

def isFwDigit (c : Char) : Bool := '０' ≤ c && c ≤ '９'

def isPyDigit (c : Char) : Bool := isAsciiDigit c || isFwDigit c

def isPySpace (c : Char) : Bool :=
  c = ' ' || c = '\t' || c = '\n' || c = '\r' || c = '\x0b' || c = '\x0c' || c = '　'

def isPyWord (c : Char) : Bool :=
  c.isAlpha || isPyDigit c || c = '_' ||
  (0x3041 ≤ c.toNat && c.toNat ≤ 0x3096) ||
  (0x30A1 ≤ c.toNat && c.toNat ≤ 0x30FA) ||
  (0x30FC ≤ c.toNat && c.toNat ≤ 0x30FF) ||
  (0x4E00 ≤ c.toNat && c.toNat ≤ 0x9FFF) ||
  (0x3005 ≤ c.toNat && c.toNat ≤ 0x3007)

/- ### Glyph normalizer (normalize_fullwidth_to_halfwidth, lines 22-36)

`str.maketrans("０１２３４５６７８９", "0123456789")` is a ten-entry
character table; `translate` applies it pointwise. -/

def normalizeChar (c : Char) : Char :=
  if c = '０' then '0' else if c = '１' then '1' else if c = '２' then '2'
  else if c = '３' then '3' else if c = '４' then '4' else if c = '５' then '5'
  else if c = '６' then '6' else if c = '７' then '7' else if c = '８' then '8'
  else if c = '９' then '9' else c

def normalize_fullwidth_to_halfwidth (s : List Char) : List Char :=
  s.map normalizeChar

/- ### Small string helpers -/

/-- The sentinel string "null". -/
def nullStr : List Char := ['n', 'u', 'l', 'l']

/-- Python `'、'.join(l)`. -/
def joinDelim (l : List (List Char)) : List Char := List.intercalate ['、'] l

/-- Python `str.strip()` (whitespace from both ends). -/
def pyStrip (s : List Char) : List Char :=
  ((s.dropWhile isPySpace).reverse.dropWhile isPySpace).reverse

/-- Is `p` a prefix of `s`? -/
def hasPrefixL : List Char → List Char → Bool
  | [], _ => true
  | _ :: _, [] => false
  | p :: ps, c :: cs => (p = c) && hasPrefixL ps cs

/-- Python `s.replace(pat, '')` (all non-overlapping occurrences, left to
right); fuel-driven, `fuel = s.length` suffices for non-empty `pat`. -/
def removeSubF (pat : List Char) : Nat → List Char → List Char
  | _, [] => []
  | 0, s => s
  | n + 1, c :: t =>
    if hasPrefixL pat (c :: t) then removeSubF pat n ((c :: t).drop pat.length)
    else c :: removeSubF pat n t

def removeSub (s pat : List Char) : List Char := removeSubF pat s.length s

/-- Python `pat in s` (substring containment), fuel-driven. -/
def containsSubF (pat : List Char) : Nat → List Char → Bool
  | 0, s => hasPrefixL pat s
  | n + 1, s =>
    hasPrefixL pat s ||
      match s with
      | [] => false
      | _ :: t => containsSubF pat n t

def containsSub (s pat : List Char) : Bool := containsSubF pat s.length s

/- ### Generic scan drivers (re.search / re.findall)

`searchFirstF f fuel s` returns `f` applied at the leftmost position of
`s` where it matches (Python `re.search` tries every start position left
to right).  `findAllF` is `re.findall`: after a match the scan resumes at
the end of the match (all our matchers consume at least one character). -/

def searchFirstF {α : Type} (f : List Char → Option α) : Nat → List Char → Option α
  | 0, s => f s
  | n + 1, s =>
    match f s with
    | some r => some r
    | none =>
      match s with
      | [] => none
      | _ :: t => searchFirstF f n t

def findAllF {α : Type} (f : List Char → Option (α × List Char)) :
    Nat → List Char → List α
  | 0, s =>
    match f s with
    | some (a, _) => [a]
    | none => []
  | n + 1, s =>
    match f s with
    | some (a, rest) => a :: findAllF f n rest
    | none =>
      match s with
      | [] => []
      | _ :: t => findAllF f n t

/- ### Group marker matcher: `(\d+)\s*班`

At a given start position the match is deterministic: `\d+` greedily takes
the maximal digit run (no shorter run can help, since the character after
a shorter run is a digit, never `班` nor usable by `\s*`), `\s*` the
maximal whitespace run, then the literal `班` must follow. -/

def groupAnchorAt (s : List Char) : Option (List Char × Nat) :=
  let d := s.takeWhile isPyDigit
  if d.isEmpty then none
  else
    let r1 := s.drop d.length
    let w := r1.takeWhile isPySpace
    if (r1.drop w.length).head? = some '班' then some (d, d.length + w.length + 1)
    else none

/- ### Name matcher: `\d+\s*班\s+([^\s]+(?:\s+[^\s]+)?)` (line 203)

After the marker, `\s+` must find at least one whitespace character, then
the first token is the maximal non-whitespace run; the optional group
greedily adds a second whitespace run plus token when both are non-empty
(the captured group includes the separating whitespace). -/

def nameMatchAt (s : List Char) : Option (List Char) :=
  let d := s.takeWhile isPyDigit
  if d.isEmpty then none
  else
    let r1 := s.drop d.length
    let w := r1.takeWhile isPySpace
    match r1.drop w.length with
    | c :: s2 =>
      if c = '班' then
        let sp1 := s2.takeWhile isPySpace
        if sp1.isEmpty then none
        else
          let s3 := s2.drop sp1.length
          let tok1 := s3.takeWhile (fun x => !isPySpace x)
          if tok1.isEmpty then none
          else
            let s4 := s3.drop tok1.length
            let sp2 := s4.takeWhile isPySpace
            let s5 := s4.drop sp2.length
            let tok2 := s5.takeWhile (fun x => !isPySpace x)
            if sp2.isEmpty || tok2.isEmpty then some tok1
            else some (tok1 ++ sp2 ++ tok2)
      else none
    | [] => none

/-- The furigana filter `re.match(r'^[ぁ-ん\s]+$', name)` (line 207): the
name candidate consists only of hiragana `ぁ`..`ん` (U+3041-U+3093) and
whitespace.  Candidates never end in a newline (they end in a non-space
character), so `$` here is plain end-of-string. -/
def isHiraSpace (n : List Char) : Bool :=
  !n.isEmpty && n.all (fun c => (0x3041 ≤ c.toNat && c.toNat ≤ 0x3093) || isPySpace c)

/- ### Email matcher: `[\w\.-]+@[\w\.-]+\.\w+` (lines 70, 211)

`[\w\.-]+` greedily takes the maximal run; since `@` is not in the class,
the `@` must sit exactly at the end of that run.  After `@` the engine
backtracks the second `[\w\.-]+` from longest to shortest (length at
least 1), so the `\.` lands on the RIGHTMOST dot of the run that is
followed by a word character; `\w+` then takes the maximal word run. -/

def isEmailChar (c : Char) : Bool := isPyWord c || c = '.' || c = '-'

/-- For the maximal `[\w\.-]` run `d` after `@`: split at the last dot
followed by a word character; returns `(part before the dot, word run
after the dot, suffix of `d` after that word run)`. -/
def splitLastDotWord : List Char → Option (List Char × List Char × List Char)
  | [] => none
  | c :: cs =>
    match splitLastDotWord cs with
    | some (p, w, r) => some (c :: p, w, r)
    | none =>
      if c = '.' then
        let w := cs.takeWhile isPyWord
        if w.isEmpty then none else some ([], w, cs.drop w.length)
      else none

def emailMatchAt (s : List Char) : Option (List Char × List Char) :=
  let l := s.takeWhile isEmailChar
  if l.isEmpty then none
  else
    match s.drop l.length with
    | c :: r =>
      if c = '@' then
        let d := r.takeWhile isEmailChar
        match splitLastDotWord d with
        | some (p, w, rest) =>
          -- `p = []` would mean the second `[\w\.-]+` matched nothing: refused
          if p.isEmpty then none
          else some (l ++ '@' :: (p ++ '.' :: w), rest ++ r.drop d.length)
        | none => none
      else none
    | [] => none

/- ### Phone matchers (lines 79, 217)

Contact splitter: `[\(（]?\d{2,4}[-ー]\d{2,4}[-ー]\d{4}[\)）]?`;
entry extractor: `[\(（]?\d{2,4}[-ー一=]\d{2,4}[-ー一=]\d{4}[\)）]?`.
`\d{2,4}` greedily takes the maximal digit run, which must have length
2..4 (a longer run leaves a digit where the separator is required, and
backtracking to a shorter take also leaves a digit there); `\d{4}` needs a
run of at least 4 and takes exactly 4; both parentheses are optional and
committed (falling back to zero width would put a digit test on the
parenthesis character, which fails). -/

def telSepContact (c : Char) : Bool := c = '-' || c = 'ー'

def telSepEntry (c : Char) : Bool := c = '-' || c = 'ー' || c = '一' || c = '='

def telTail (sep : Char → Bool) (pre : List Char) (s2 : List Char) :
    Option (List Char × List Char) :=
  let d2 := s2.takeWhile isPyDigit
  if 2 ≤ d2.length && d2.length ≤ 4 then
    match s2.drop d2.length with
    | c2 :: s3 =>
      if sep c2 then
        let d3 := s3.takeWhile isPyDigit
        if 4 ≤ d3.length then
          let core := pre ++ d2 ++ c2 :: s3.take 4
          match s3.drop 4 with
          | c3 :: s5 =>
            if c3 = ')' || c3 = '）' then some (core ++ [c3], s5)
            else some (core, c3 :: s5)
          | [] => some (core, [])
        else none
      else none
    | [] => none
  else none

def telMatchAt (sep : Char → Bool) (s : List Char) : Option (List Char × List Char) :=
  let pr : List Char × List Char :=
    match s with
    | c :: t => if c = '(' || c = '（' then ([c], t) else ([], s)
    | [] => ([], [])
  let s1 := pr.2
  let d1 := s1.takeWhile isPyDigit
  if 2 ≤ d1.length && d1.length ≤ 4 then
    match s1.drop d1.length with
    | c1 :: s2 =>
      if sep c1 then telTail sep (pr.1 ++ d1 ++ [c1]) s2 else none
    | [] => none
  else none

/-- The entry extractor's separator normalization (lines 222-224):
`tel.replace('ー', '-').replace('一', '-').replace('=', '-')`; the three
single-character replacements amount to a pointwise map. -/
def normHyphenChar (c : Char) : Char :=
  if c = 'ー' || c = '一' || c = '=' then '-' else c

def normHyphens (t : List Char) : List Char := t.map normHyphenChar

/- ### Address matcher (line 228):
`虹[^0-9①②③\n]*[0-9０-９一ー=-]+[0-9０-９一ー=-]*[0-9０-９一ー=-]*`

Write `A = [^0-9①②③\n]`, `B = [0-9０-９一ー=-]`.  After `虹`, `A*`
greedily takes the maximal A-run and backtracks until `B+` can start, so
`B+` starts at the largest k ≤ (length of the A-run) whose character is
in B (the character just past the A-run can only be in B if it is an
ASCII digit).  `B+` then takes the maximal B-run; the two trailing `B*`
match empty. -/

def isAddrA (c : Char) : Bool :=
  !(isAsciiDigit c || c = '①' || c = '②' || c = '③' || c = '\n')

def isAddrB (c : Char) : Bool :=
  isAsciiDigit c || isFwDigit c || c = '一' || c = 'ー' || c = '=' || c = '-'

/-- Split a list just before its LAST character satisfying `isAddrB`. -/
def splitLastB : List Char → Option (List Char × List Char)
  | [] => none
  | c :: cs =>
    match splitLastB cs with
    | some (p, r) => some (c :: p, r)
    | none => if isAddrB c then some ([], c :: cs) else none

def addrMatchAt (s : List Char) : Option (List Char) :=
  match s with
  | c :: u =>
    if c = '虹' then
      let a := u.takeWhile isAddrA
      let r := u.drop a.length
      match r with
      | c1 :: _ =>
        if isAddrB c1 then some ('虹' :: (a ++ r.takeWhile isAddrB))
        else
          match splitLastB a with
          | some (p, sfx) => some ('虹' :: (p ++ sfx.takeWhile isAddrB))
          | none => none
      | [] =>
        match splitLastB a with
        | some (p, sfx) => some ('虹' :: (p ++ sfx.takeWhile isAddrB))
        | none => none
    else none
  | [] => none

/- ### Committee matchers (lines 137-141)

`([①②③])\s*([^、,\s]+)`, `([1-3])\s*([^、,\s]+)`, and
`([①②③1-3])[.．)\)）]\s*([^、,\s]+)`.  After the marker (and for the
third family one punctuation character), `\s*` takes the maximal
whitespace run and the fragment is the maximal run outside `[、,\s]`
(which must be non-empty; backtracking `\s*` cannot help since a
whitespace character is in `[、,\s]`). -/

def isCircled (c : Char) : Bool := c = '①' || c = '②' || c = '③'

def isDigit13 (c : Char) : Bool := c = '1' || c = '2' || c = '3'

def isDeptPunct (c : Char) : Bool := c = '.' || c = '．' || c = ')' || c = '）'

def isSepBlock (c : Char) : Bool := c = '、' || c = ',' || isPySpace c

def deptFragAt (u : List Char) : Option (List Char × List Char) :=
  let w := u.takeWhile isPySpace
  let v := u.drop w.length
  let frag := v.takeWhile (fun x => !isSepBlock x)
  if frag.isEmpty then none else some (frag, v.drop frag.length)

def deptMarkAt (mark : Char → Bool) (needPunct : Bool) (s : List Char) :
    Option ((Char × List Char) × List Char) :=
  match s with
  | m :: s1 =>
    if mark m then
      if needPunct then
        match s1 with
        | p :: s2 =>
          if isDeptPunct p then
            match deptFragAt s2 with
            | some (f, rest) => some ((m, f), rest)
            | none => none
          else none
        | [] => none
      else
        match deptFragAt s1 with
        | some (f, rest) => some ((m, f), rest)
        | none => none
    else none
  | [] => none

/- ### Supplement matchers (lines 247-251)

`③[^①②③\n]+([^\n①②③]+)`: both classes denote the same character set
X; the first `X+` greedily takes the maximal run and backtracks exactly
one character so that the captured `X+` can match, hence the group is
always the LAST character of a run of length at least 2.
`\(([^)]+)\)` and `（([^）]+)）`: maximal non-closing run between the
parentheses (which may itself contain opening parentheses). -/

def isSuppX (c : Char) : Bool := !(c = '①' || c = '②' || c = '③' || c = '\n')

def suppP1At (s : List Char) : Option (List Char × List Char) :=
  match s with
  | c :: u =>
    if c = '③' then
      let r := u.takeWhile isSuppX
      if 2 ≤ r.length then some (r.drop (r.length - 1), u.drop r.length)
      else none
    else none
  | [] => none

def parenAt (op cl : Char) (s : List Char) : Option (List Char × List Char) :=
  match s with
  | c :: u =>
    if c = op then
      let r := u.takeWhile (fun x => !(x = cl))
      if r.isEmpty then none
      else
        match u.drop r.length with
        | c2 :: rest => if c2 = cl then some (r, rest) else none
        | [] => none
    else none
  | [] => none

/- ### Page marker (line 298): `===\s*ページ\s*\d+\s*===`

`re.split` followed by `'\n'.join` replaces every (leftmost,
non-overlapping) marker occurrence by a single newline. -/

def pageMarkerAt (s : List Char) : Option (List Char) :=
  match s with
  | '=' :: '=' :: '=' :: u =>
    let w1 := u.takeWhile isPySpace
    match u.drop w1.length with
    | 'ペ' :: 'ー' :: 'ジ' :: v =>
      let w2 := v.takeWhile isPySpace
      let v1 := v.drop w2.length
      let d := v1.takeWhile isPyDigit
      if d.isEmpty then none
      else
        let v2 := v1.drop d.length
        let w3 := v2.takeWhile isPySpace
        match v2.drop w3.length with
        | '=' :: '=' :: '=' :: rest => some rest
        | _ => none
    | _ => none
  | _ => none

def stripPageMarkersF : Nat → List Char → List Char
  | _, [] => []
  | 0, s => s
  | n + 1, c :: t =>
    match pageMarkerAt (c :: t) with
    | some rest => '\n' :: stripPageMarkersF n rest
    | none => c :: stripPageMarkersF n t

/- ### Data model: the nine committees (DEPARTMENTS, lines 15-19) -/

inductive Dept
  | «事務局» | «会計» | «書記» | «名簿» | «防犯防災» | «回覧広報» | «地域コミュ»
  | «環境美化» | «厚生福祉»
deriving DecidableEq

def DEPARTMENTS : List Dept :=
  [.«事務局», .«会計», .«書記», .«名簿», .«防犯防災», .«回覧広報», .«地域コミュ»,
   .«環境美化», .«厚生福祉»]

def Dept.name : Dept → List Char
  | .«事務局» => ("事務局").toList
  | .«会計» => ("会計").toList
  | .«書記» => ("書記").toList
  | .«名簿» => ("名簿").toList
  | .«防犯防災» => ("防犯防災").toList
  | .«回覧広報» => ("回覧広報").toList
  | .«地域コミュ» => ("地域コミュ").toList
  | .«環境美化» => ("環境美化").toList
  | .«厚生福祉» => ("厚生福祉").toList

/-- The committee-to-priority dictionary: exactly the nine fixed keys. -/
structure DeptMap where
  «事務局» : List Char
  «会計» : List Char
  «書記» : List Char
  «名簿» : List Char
  «防犯防災» : List Char
  «回覧広報» : List Char
  «地域コミュ» : List Char
  «環境美化» : List Char
  «厚生福祉» : List Char
deriving DecidableEq

def DeptMap.empty : DeptMap := ⟨[], [], [], [], [], [], [], [], []⟩

def DeptMap.get (m : DeptMap) : Dept → List Char
  | .«事務局» => m.«事務局»
  | .«会計» => m.«会計»
  | .«書記» => m.«書記»
  | .«名簿» => m.«名簿»
  | .«防犯防災» => m.«防犯防災»
  | .«回覧広報» => m.«回覧広報»
  | .«地域コミュ» => m.«地域コミュ»
  | .«環境美化» => m.«環境美化»
  | .«厚生福祉» => m.«厚生福祉»

def DeptMap.set (m : DeptMap) : Dept → List Char → DeptMap
  | .«事務局», v => { m with «事務局» := v }
  | .«会計», v => { m with «会計» := v }
  | .«書記», v => { m with «書記» := v }
  | .«名簿», v => { m with «名簿» := v }
  | .«防犯防災», v => { m with «防犯防災» := v }
  | .«回覧広報», v => { m with «回覧広報» := v }
  | .«地域コミュ», v => { m with «地域コミュ» := v }
  | .«環境美化», v => { m with «環境美化» := v }
  | .«厚生福祉», v => { m with «厚生福祉» := v }

/- ### Committee priority parser (parse_departments, lines 106-159) -/

/-- Python `priority_map.get(priority, priority)`: `1,2,3` to circled numerals,
anything else (in particular the circled numerals) to itself. -/
def priMap (c : Char) : Char :=
  if c = '1' then '①' else if c = '2' then '②' else if c = '3' then '③' else c

/-- Python `for dept in DEPARTMENTS: if dept in dept_name: ...; break` — the
first of the nine names contained in the matched fragment. -/
def firstDept (frag : List Char) : Option Dept :=
  DEPARTMENTS.find? (fun d => containsSub frag d.name)

def applyDeptMatch (m : DeptMap) (pm : Char × List Char) : DeptMap :=
  match firstDept pm.2 with
  | some d => m.set d [priMap pm.1]
  | none => m

def deptMatchesP1 (t : List Char) : List (Char × List Char) :=
  findAllF (deptMarkAt isCircled false) t.length t

def deptMatchesP2 (t : List Char) : List (Char × List Char) :=
  findAllF (deptMarkAt isDigit13 false) t.length t

def deptMatchesP3 (t : List Char) : List (Char × List Char) :=
  findAllF (deptMarkAt (fun c => isCircled c || isDigit13 c) true) t.length t

/-- The three pattern families applied in their fixed order. -/
def deptMatches (t : List Char) : List (Char × List Char) :=
  deptMatchesP1 t ++ deptMatchesP2 t ++ deptMatchesP3 t

def parse_departments : List Char → DeptMap
  | [] => DeptMap.empty
  | c :: t =>
    (deptMatches (normalize_fullwidth_to_halfwidth (c :: t))).foldl
      applyDeptMatch DeptMap.empty

/-- The empty-to-sentinel replacement used by both the contact splitter
(lines 95-101) and the entry finalization (lines 272-275). -/
def finz (s : List Char) : List Char := if s.isEmpty then nullStr else s

/- ### Contact splitter (parse_contact_info, lines 39-103) -/

structure ContactInfo where
  address : List Char
  tel : List Char
  email : List Char
deriving DecidableEq

/-- Python `re.sub(r'^[、,\s]+|[、,\s]+$', '', s)`: one maximal run at each end. -/
def stripSepEnds (s : List Char) : List Char :=
  ((s.dropWhile isSepBlock).reverse.dropWhile isSepBlock).reverse

/-- Python `re.sub(r'[、,\s]+$', '', s)` (line 236). -/
def stripTrailSeps (s : List Char) : List Char :=
  (s.reverse.dropWhile isSepBlock).reverse

/-- Python `re.sub(r'[、,\s]+', '、', s)`: each maximal separator run becomes one
`、`; the flag records whether we are inside a run. -/
def collapseSepsAux : Bool → List Char → List Char
  | _, [] => []
  | inRun, c :: cs =>
    if isSepBlock c then
      if inRun then collapseSepsAux true cs else '、' :: collapseSepsAux true cs
    else c :: collapseSepsAux false cs

def collapseSeps (s : List Char) : List Char := collapseSepsAux false s

def emailSearch (t : List Char) : Option (List Char) :=
  searchFirstF (fun s => (emailMatchAt s).map Prod.fst) t.length t

def telFindall (sep : Char → Bool) (t : List Char) : List (List Char) :=
  findAllF (telMatchAt sep) t.length t

/-- The three contact results before the empty-to-sentinel replacement. -/
def contactRaw (contact_text : List Char) : ContactInfo :=
  let t1 := normalize_fullwidth_to_halfwidth contact_text
  let emailV : List Char :=
    match emailSearch t1 with
    | some m => m
    | none => []
  let t2 := if emailV.isEmpty then t1 else removeSub t1 emailV
  let tels := telFindall telSepContact t2
  let telV := if tels.isEmpty then [] else joinDelim tels
  let t3 := tels.foldl removeSub t2
  let address2 := collapseSeps (stripSepEnds (pyStrip t3))
  { address := address2, tel := telV, email := emailV }

/-- Lines 95-101: replace each empty result with the sentinel. -/
def finalizeContact (r : ContactInfo) : ContactInfo :=
  { address := finz r.address, tel := finz r.tel, email := finz r.email }

def parse_contact_info : List Char → ContactInfo
  | [] => { address := [], tel := [], email := [] }
  | c :: t => finalizeContact (contactRaw (c :: t))

/- ### Entry field extractor (parse_班長_entry, lines 162-277) -/

structure RosterEntry where
  «班» : List Char
  «氏名» : List Char
  «住所» : List Char
  TEL : List Char
  «メールアドレス» : List Char
  «補足事項» : List Char
  depts : DeptMap
deriving DecidableEq

def finalizeDepts (m : DeptMap) : DeptMap :=
  ⟨finz m.«事務局», finz m.«会計», finz m.«書記», finz m.«名簿», finz m.«防犯防災»,
   finz m.«回覧広報», finz m.«地域コミュ», finz m.«環境美化», finz m.«厚生福祉»⟩

def finalizeEntry (r : RosterEntry) : RosterEntry :=
  { «班» := finz r.«班», «氏名» := finz r.«氏名», «住所» := finz r.«住所»,
    TEL := finz r.TEL, «メールアドレス» := finz r.«メールアドレス»,
    «補足事項» := finz r.«補足事項», depts := finalizeDepts r.depts }

def groupSearch (t : List Char) : Option (List Char) :=
  searchFirstF (fun s => (groupAnchorAt s).map Prod.fst) t.length t

def nameSearch (t : List Char) : Option (List Char) :=
  searchFirstF nameMatchAt t.length t

def addrSearch (t : List Char) : Option (List Char) :=
  searchFirstF addrMatchAt t.length t

/-- Supplement candidates: the three patterns' `findall` results in order. -/
def suppRawMatches (t : List Char) : List (List Char) :=
  findAllF suppP1At t.length t ++ findAllF (parenAt '(' ')') t.length t ++
    findAllF (parenAt '（' '）') t.length t

/-- Filter on a stripped candidate (lines 257-267): non-empty, does not
start with a circled numeral, length above 1, and not a short (< 10
characters) committee-name mention. -/
def suppOk (m : List Char) : Bool :=
  match m with
  | [] => false
  | c :: _ =>
    !isCircled c && 1 < m.length &&
      !(DEPARTMENTS.any (fun d => containsSub m d.name && m.length < 10))

def suppFilter (ms : List (List Char)) : List (List Char) :=
  (ms.map pyStrip).filter suppOk

def «parse_班長_entry» (text0 : List Char) : RosterEntry :=
  let text := normalize_fullwidth_to_halfwidth (pyStrip text0)
  let hanV : List Char :=
    match groupSearch text with
    | some d => d ++ ['班']
    | none => []
  let nameV : List Char :=
    match nameSearch text with
    | some n => if isHiraSpace n then [] else n
    | none => []
  let emailV : List Char :=
    match emailSearch text with
    | some m => m
    | none => []
  let tels := telFindall telSepEntry text
  let telV := if tels.isEmpty then [] else joinDelim (tels.map normHyphens)
  let addrV : List Char :=
    match addrSearch text with
    | some a => stripTrailSeps (normHyphens (normalize_fullwidth_to_halfwidth a))
    | none => []
  let deptInfo := parse_departments text
  let supps := suppFilter (suppRawMatches text)
  let suppV := if supps.isEmpty then [] else joinDelim supps
  finalizeEntry
    { «班» := hanV, «氏名» := nameV, «住所» := addrV, TEL := telV,
      «メールアドレス» := emailV, «補足事項» := suppV, depts := deptInfo }

/- ### Entry segmenter (parse_text_file, lines 280-322)

`re.finditer(r'(\d+)\s*班', combined)` produces the anchors; each span
runs from an anchor's start to the next anchor's start (the search for
the next match resumes at the end of the previous match). -/

/-- Leftmost position where `groupAnchorAt` matches: returns the skipped
prefix and the suffix starting at the match. -/
def findAnchorF : Nat → List Char → Option (List Char × List Char)
  | 0, s => if (groupAnchorAt s).isSome then some ([], s) else none
  | n + 1, s =>
    if (groupAnchorAt s).isSome then some ([], s)
    else
      match s with
      | [] => none
      | c :: t =>
        match findAnchorF n t with
        | some (p, suf) => some (c :: p, suf)
        | none => none

/-- Here `t` starts at the current anchor with digit group `d` and match
length `L`; emit `(digits, span)` pairs for this and all later anchors. -/
def anchorSpansAux : Nat → List Char → List Char → Nat → List (List Char × List Char)
  | 0, t, d, _ => [(d, t)]
  | n + 1, t, d, L =>
    match findAnchorF (t.drop L).length (t.drop L) with
    | none => [(d, t)]
    | some (p, suf) =>
      match groupAnchorAt suf with
      | some (d2, L2) => (d, t.take (L + p.length)) :: anchorSpansAux n suf d2 L2
      | none => [(d, t)]

def anchorSpans (s : List Char) : List (List Char × List Char) :=
  match findAnchorF s.length s with
  | none => []
  | some (_, suf) =>
    match groupAnchorAt suf with
    | some (d, L) => anchorSpansAux suf.length suf d L
    | none => []

/-- The anchors' digit groups in discovery order — "the markers". -/
def anchorDigits (s : List Char) : List (List Char) := (anchorSpans s).map Prod.fst

def combineStream (text : List Char) : List Char := stripPageMarkersF text.length text

def parse_text_file (text : List Char) : List RosterEntry :=
  let combined := combineStream text
  ((anchorSpans combined).map (fun x => «parse_班長_entry» x.2)).filter
    (fun r => r.«班» != nullStr)

/- ### Derived notions used in the statements -/

/-- The (committee, normalized priority) assignment induced by one match
pair, when its fragment contains a committee name. -/
def assignOf (pm : Char × List Char) : Option (Dept × Char) :=
  (firstDept pm.2).map (fun d => (d, priMap pm.1))

def deptAssignments (t : List Char) : List (Dept × Char) :=
  (deptMatches t).filterMap assignOf

/-- The last assignment for committee `d` in the assignment list. -/
def lastAssign (l : List (Dept × Char)) (d : Dept) : Option Char :=
  (l.reverse.find? (fun x => decide (x.1 = d))).map Prod.snd

/-- A `(digits, span)` pair whose span starts with a full group-marker
match whose digit group is exactly those digits. -/
def AnchorForm : List Char × List Char → Prop
  | (d, sp) =>
    ∃ w t, sp = d ++ (w ++ '班' :: t) ∧ d ≠ [] ∧
      (∀ c ∈ d, isPyDigit c = true) ∧ ∀ c ∈ w, isPySpace c = true

/-- A finalized field: the sentinel, or a non-empty string. -/
def fieldOk (s : List Char) : Prop := s = nullStr ∨ s ≠ []

/-- A phone candidate whose two separator slots hold `a` and `-`. -/
def telCand (a : Char) : List Char :=
  ['0', '4', '4', a, '9', '8', '8', '-', '4', '9', '5', '2']

/-- Japanese phonetic-syllabary characters: hiragana (U+3041-U+3096),
katakana (U+30A1-U+30FA) and the kana length/iteration marks
(U+30FC-U+30FF). -/
def isPhoneticKana (c : Char) : Bool :=
  (0x3041 ≤ c.toNat && c.toNat ≤ 0x3096) || (0x30A1 ≤ c.toNat && c.toNat ≤ 0x30FA) ||
    (0x30FC ≤ c.toNat && c.toNat ≤ 0x30FF)

/- ### Lemmas: character classes and the glyph normalizer -/

theorem space_not_digit {c : Char} (h : isPySpace c = true) : isPyDigit c = false := by
  rcases (by simpa [isPySpace, or_assoc] using h :
      c = ' ' ∨ c = '\t' ∨ c = '\n' ∨ c = '\r' ∨ c = '\x0b' ∨ c = '\x0c' ∨ c = '　') with
    rfl | rfl | rfl | rfl | rfl | rfl | rfl <;> decide

theorem digit_not_space {c : Char} (h : isPyDigit c = true) : isPySpace c = false := by
  by_contra hs
  have := space_not_digit (c := c) (by simpa using hs)
  simp [this] at h

theorem digit_ne_han {c : Char} (h : isPyDigit c = true) : c ≠ '班' := by
  rintro rfl; simp [isPyDigit, isAsciiDigit, isFwDigit] at h

theorem normalizeChar_digit (c : Char) : isPyDigit (normalizeChar c) = isPyDigit c := by
  unfold normalizeChar
  split_ifs with h h h h h h h h h h <;> first | rfl | (subst h; decide)

theorem normalizeChar_space (c : Char) : isPySpace (normalizeChar c) = isPySpace c := by
  unfold normalizeChar
  split_ifs with h h h h h h h h h h <;> first | rfl | (subst h; decide)

theorem normalizeChar_of_space {c : Char} (h : isPySpace c = true) : normalizeChar c = c := by
  rcases (by simpa [isPySpace, or_assoc] using h :
      c = ' ' ∨ c = '\t' ∨ c = '\n' ∨ c = '\r' ∨ c = '\x0b' ∨ c = '\x0c' ∨ c = '　') with
    rfl | rfl | rfl | rfl | rfl | rfl | rfl <;> decide

theorem normalizeChar_ascii {c : Char} (h : isAsciiDigit c = true) : normalizeChar c = c := by
  unfold normalizeChar
  split_ifs with h1 h1 h1 h1 h1 h1 h1 h1 h1 h1 <;>
    first | rfl | (subst h1; exact absurd h (by decide))

theorem normalizeChar_cases (c : Char) :
    normalizeChar c = c ∨ normalizeChar c ∈ ['0', '1', '2', '3', '4', '5', '6', '7', '8', '9'] := by
  unfold normalizeChar
  split_ifs <;> first | exact Or.inl rfl | exact Or.inr (by decide)

/- ### Lemmas: runs, takeWhile and dropWhile -/

theorem takeWhile_run {p : Char → Bool} {a : List Char} (h : ∀ x ∈ a, p x = true)
    {c : Char} (hc : p c = false) (b : List Char) : (a ++ c :: b).takeWhile p = a := by
  induction a with
  | nil => simp [List.takeWhile_cons, hc]
  | cons x xs ih => simp_all [List.takeWhile_cons]

theorem dropWhile_run {p : Char → Bool} {a : List Char} (h : ∀ x ∈ a, p x = true)
    {c : Char} (hc : p c = false) (b : List Char) : (a ++ c :: b).dropWhile p = c :: b := by
  induction a with
  | nil => simp [List.dropWhile_cons, hc]
  | cons x xs ih => simp_all [List.dropWhile_cons]

theorem dropWhile_append_stop {p : Char → Bool} (a : List Char) {c : Char}
    (hc : p c = false) (b : List Char) :
    (a ++ c :: b).dropWhile p = a.dropWhile p ++ c :: b := by
  induction a with
  | nil => simp [List.dropWhile_cons, hc]
  | cons x xs ih => by_cases h : p x <;> simp [List.dropWhile_cons, h, ih]

theorem drop_of_takeWhile_run {p : Char → Bool} {a : List Char} (h : ∀ x ∈ a, p x = true)
    {c : Char} (hc : p c = false) (b : List Char) :
    (a ++ c :: b).drop ((a ++ c :: b).takeWhile p).length = c :: b := by
  rw [takeWhile_run h hc]
  have := List.drop_left a (c :: b)
  exact this

theorem take_append_cons {α : Type} (a : List α) (c : α) (b : List α) {n : Nat}
    (h : a.length + 1 ≤ n) :
    (a ++ c :: b).take n = a ++ c :: b.take (n - a.length - 1) := by
  obtain ⟨m, hm⟩ : ∃ m, n - a.length = m + 1 := ⟨n - a.length - 1, by omega⟩
  rw [List.take_append_eq_append_take, List.take_of_length_le (by omega), hm,
    List.take_succ_cons, Nat.add_sub_cancel]

/- ### Claim C7: the glyph normalizer -/

/-- Claim C7: `normalize_fullwidth_to_halfwidth` maps each full-width
digit `０`-`９` (U+FF10-U+FF19, which are exactly the characters
satisfying `isFwDigit`) to its half-width ASCII equivalent, leaves every
other character unchanged, and is idempotent. -/
theorem c7_normalizer :
    (normalizeChar '０' = '0' ∧ normalizeChar '１' = '1' ∧ normalizeChar '２' = '2' ∧
     normalizeChar '３' = '3' ∧ normalizeChar '４' = '4' ∧ normalizeChar '５' = '5' ∧
     normalizeChar '６' = '6' ∧ normalizeChar '７' = '7' ∧ normalizeChar '８' = '8' ∧
     normalizeChar '９' = '9') ∧
    (∀ c : Char, isFwDigit c = false → normalizeChar c = c) ∧
    (∀ s : List Char,
      normalize_fullwidth_to_halfwidth (normalize_fullwidth_to_halfwidth s) =
        normalize_fullwidth_to_halfwidth s) := by
  refine ⟨by decide, ?_, ?_⟩
  · intro c h
    unfold normalizeChar
    split_ifs with h1 h1 h1 h1 h1 h1 h1 h1 h1 h1 <;>
      first | rfl | (subst h1; exact absurd h (by decide))
  · intro s
    unfold normalize_fullwidth_to_halfwidth
    rw [List.map_map]
    refine List.map_congr_left fun c _ => ?_
    show normalizeChar (normalizeChar c) = normalizeChar c
    rcases normalizeChar_cases c with h | h
    · rw [h, h]
    · rcases (by simpa using h :
          normalizeChar c = '0' ∨ normalizeChar c = '1' ∨ normalizeChar c = '2' ∨
          normalizeChar c = '3' ∨ normalizeChar c = '4' ∨ normalizeChar c = '5' ∨
          normalizeChar c = '6' ∨ normalizeChar c = '7' ∨ normalizeChar c = '8' ∨
          normalizeChar c = '9') with
        h | h | h | h | h | h | h | h | h | h <;> rw [h] <;> decide

/-- Witness for C7's hypothesis-bearing part at the concrete character `A`. -/
theorem c7_normalizer_witness : normalizeChar 'A' = 'A' :=
  c7_normalizer.2.1 'A' (by decide)

/- ### Lemmas: finalization -/

theorem finz_ok (s : List Char) : fieldOk (finz s) := by
  unfold finz fieldOk
  split
  · exact Or.inl rfl
  · next h => exact Or.inr (by simpa [List.isEmpty_iff] using h)

theorem finz_ne_nil (s : List Char) : finz s ≠ [] := by
  unfold finz
  split
  · decide
  · next h => simpa [List.isEmpty_iff] using h

theorem finalizeDepts_get (m : DeptMap) (d : Dept) :
    (finalizeDepts m).get d = finz (m.get d) := by
  cases d <;> rfl

/- ### Claim C1: every finalized entry field is `'null'` or non-empty -/

/-- Claim C1: `parse_班長_entry` is a total function (the embedding is a
Lean function, so it never raises), and every field of the returned
record — group id, name, address, phones, email, each of the 9 committee
fields, and remarks — is either the sentinel `'null'` or a non-empty
string; no field is left empty. -/
theorem c1_entry_fields (span : List Char) :
    fieldOk ((«parse_班長_entry» span).«班») ∧
    fieldOk ((«parse_班長_entry» span).«氏名») ∧
    fieldOk ((«parse_班長_entry» span).«住所») ∧
    fieldOk ((«parse_班長_entry» span).TEL) ∧
    fieldOk ((«parse_班長_entry» span).«メールアドレス») ∧
    fieldOk ((«parse_班長_entry» span).«補足事項») ∧
    ∀ d : Dept, fieldOk (((«parse_班長_entry» span).depts).get d) := by
  refine ⟨finz_ok _, finz_ok _, finz_ok _, finz_ok _, finz_ok _, finz_ok _, fun d => ?_⟩
  show fieldOk ((finalizeDepts _).get d)
  rw [finalizeDepts_get]
  exact finz_ok _

/- ### Claim C4: the contact splitter and the sentinel -/

/-- Claim C4 counterexample: on the empty input the contact splitter
returns early with all three results as EMPTY strings, not the sentinel
`'null'` — refuting the claim that, for every input text, any result
that ends up empty is replaced with the sentinel. -/
theorem c4_counterexample :
    (parse_contact_info []).address = [] ∧ (parse_contact_info []).tel = [] ∧
    (parse_contact_info []).email = [] ∧ nullStr ≠ [] := by decide

/-- Claim C4 (amended): for every NON-EMPTY input text, `parse_contact_info`
never raises (it is a total function), and any of the three results that
ends up empty is replaced with the sentinel `'null'`, so each of the
three returned fields is a non-empty string — absence is signaled only
via the sentinel, never via an empty string. -/
theorem parse_contact_info_cons (c : Char) (t : List Char) :
    parse_contact_info (c :: t) = finalizeContact (contactRaw (c :: t)) := rfl

theorem c4_amended (s : List Char) (h : s ≠ []) :
    (parse_contact_info s).address ≠ [] ∧ (parse_contact_info s).tel ≠ [] ∧
    (parse_contact_info s).email ≠ [] := by
  obtain ⟨c, t, rfl⟩ : ∃ c t, s = c :: t := by
    cases s with
    | nil => exact absurd rfl h
    | cons c t => exact ⟨c, t, rfl⟩
  rw [parse_contact_info_cons]
  generalize contactRaw (c :: t) = r
  exact ⟨finz_ne_nil _, finz_ne_nil _, finz_ne_nil _⟩

/-- Witness for C4 (amended) at a concrete one-character input. -/
theorem c4_amended_witness :
    (parse_contact_info (("a").toList)).tel ≠ [] ∧
    (parse_contact_info (("a").toList)).tel = nullStr :=
  ⟨(c4_amended (("a").toList) (by decide)).2.1, by decide⟩

/- ### Claim C6: the contact-splitting round trip -/

/-- Claim C6: on the concrete input
`"虹ヶ丘１－２－１、044-988-4952、(090-3686-6434)、abc@xyz.com"` the contact
splitter yields the address `"虹ヶ丘1－2－1"` (full-width digits normalized
to half-width, full-width hyphens preserved), the phone field
`"044-988-4952、(090-3686-6434)"`, and the email `"abc@xyz.com"`. -/
theorem c6_contact_roundtrip :
    parse_contact_info (("虹ヶ丘１－２－１、044-988-4952、(090-3686-6434)、abc@xyz.com").toList) =
      { address := ("虹ヶ丘1－2－1").toList,
        tel := ("044-988-4952、(090-3686-6434)").toList,
        email := ("abc@xyz.com").toList } := by decide

/- ### Lemmas: the committee priority parser -/

theorem DeptMap.get_set (m : DeptMap) (d d' : Dept) (v : List Char) :
    (m.set d v).get d' = if d' = d then v else m.get d' := by
  cases d <;> cases d' <;> rfl

theorem DeptMap.empty_get (d : Dept) : DeptMap.empty.get d = [] := by
  cases d <;> rfl

theorem lastAssign_cons (a : Dept × Char) (l : List (Dept × Char)) (d : Dept) :
    lastAssign (a :: l) d =
      match lastAssign l d with
      | some p => some p
      | none => if a.1 = d then some a.2 else none := by
  unfold lastAssign
  rw [List.reverse_cons, List.find?_append]
  cases hL : l.reverse.find? (fun x => decide (x.1 = d)) with
  | some x => simp [Option.or]
  | none =>
    by_cases h : a.1 = d <;> simp [Option.or, List.find?, h]

theorem lastAssign_mem {l : List (Dept × Char)} {d : Dept} {p : Char}
    (h : lastAssign l d = some p) : (d, p) ∈ l := by
  unfold lastAssign at h
  cases hF : l.reverse.find? (fun x => decide (x.1 = d)) with
  | none => rw [hF] at h; simp at h
  | some x =>
    rw [hF] at h
    have h1 : x.1 = d := by simpa using List.find?_some hF
    have h2 : x ∈ l := List.mem_reverse.1 (List.mem_of_find?_eq_some hF)
    have h3 : x.2 = p := by simpa using h
    obtain ⟨x1, x2⟩ := x
    simp only at h1 h3
    subst h1; subst h3
    exact h2

theorem foldl_applyDeptMatch (l : List (Char × List Char)) (m : DeptMap) (d : Dept) :
    (l.foldl applyDeptMatch m).get d =
      match lastAssign (l.filterMap assignOf) d with
      | some p => [p]
      | none => m.get d := by
  induction l generalizing m with
  | nil => rfl
  | cons pm l ih =>
    rw [List.foldl_cons, ih, List.filterMap_cons]
    cases hA : assignOf pm with
    | none =>
      have hm : applyDeptMatch m pm = m := by
        unfold applyDeptMatch
        unfold assignOf at hA
        cases hF : firstDept pm.2 with
        | none => rfl
        | some dd => rw [hF] at hA; simp at hA
      rw [hm]
    | some a =>
      obtain ⟨dd, hF, ha⟩ : ∃ dd, firstDept pm.2 = some dd ∧ a = (dd, priMap pm.1) := by
        unfold assignOf at hA
        cases hF : firstDept pm.2 with
        | none => rw [hF] at hA; simp at hA
        | some dd =>
          rw [hF] at hA
          simp only [Option.map] at hA
          exact ⟨dd, rfl, (Option.some.inj hA).symm⟩
      subst ha
      rw [lastAssign_cons]
      cases hL : lastAssign (l.filterMap assignOf) d with
      | some p => rfl
      | none =>
        show (applyDeptMatch m pm).get d = _
        unfold applyDeptMatch
        rw [hF, DeptMap.get_set]
        by_cases hdd : d = dd
        · subst hdd; simp
        · rw [if_neg hdd, if_neg (fun h => hdd h.symm)]

theorem parse_departments_get (t : List Char) (d : Dept) :
    (parse_departments t).get d =
      match lastAssign (deptAssignments (normalize_fullwidth_to_halfwidth t)) d with
      | some p => [p]
      | none => [] := by
  cases t with
  | nil => cases d <;> rfl
  | cons c t =>
    show ((deptMatches (normalize_fullwidth_to_halfwidth (c :: t))).foldl applyDeptMatch
        DeptMap.empty).get d = _
    unfold deptAssignments
    rw [foldl_applyDeptMatch]
    cases lastAssign ((deptMatches (normalize_fullwidth_to_halfwidth (c :: t))).filterMap
        assignOf) d with
    | some p => rfl
    | none => exact DeptMap.empty_get d

theorem findAllF_zero {α : Type} (f : List Char → Option (α × List Char)) (s : List Char) :
    findAllF f 0 s =
      match f s with
      | some (a, _) => [a]
      | none => [] := rfl

theorem findAllF_succ {α : Type} (f : List Char → Option (α × List Char)) (n : Nat)
    (s : List Char) :
    findAllF f (n + 1) s =
      match f s with
      | some (a, rest) => a :: findAllF f n rest
      | none =>
        match s with
        | [] => []
        | _ :: t => findAllF f n t := rfl

theorem findAllF_forall {α : Type} (f : List Char → Option (α × List Char)) (P : α → Prop)
    (hf : ∀ s a r, f s = some (a, r) → P a) :
    ∀ fuel s, ∀ a ∈ findAllF f fuel s, P a := by
  intro fuel
  induction fuel with
  | zero =>
    intro s a ha
    rw [findAllF_zero] at ha
    cases hfs : f s with
    | none => rw [hfs] at ha; simp at ha
    | some pr =>
      obtain ⟨a', r⟩ := pr
      rw [hfs] at ha
      simp at ha
      subst ha
      exact hf _ _ _ hfs
  | succ n ih =>
    intro s a ha
    rw [findAllF_succ] at ha
    cases hfs : f s with
    | some pr =>
      obtain ⟨a', r⟩ := pr
      rw [hfs] at ha
      rcases (by simpa using ha : a = a' ∨ a ∈ findAllF f n r) with rfl | hmem
      · exact hf _ _ _ hfs
      · exact ih r a hmem
    | none =>
      rw [hfs] at ha
      cases s with
      | nil => simp at ha
      | cons c tl => exact ih tl a ha

theorem deptMarkAt_mark {mark : Char → Bool} {np : Bool} {s : List Char} {m : Char}
    {f r : List Char} (h : deptMarkAt mark np s = some ((m, f), r)) : mark m = true := by
  cases s with
  | nil => simp [deptMarkAt] at h
  | cons m1 s1 =>
    simp only [deptMarkAt] at h
    by_cases hm : mark m1
    · rw [if_pos hm] at h
      have : m = m1 := by
        repeat' split at h
        all_goals simp_all
      subst this
      exact hm
    · rw [if_neg hm] at h; simp at h

theorem deptMatches_mark (t : List Char) :
    ∀ pm ∈ deptMatches t, (isCircled pm.1 || isDigit13 pm.1) = true := by
  intro pm hpm
  unfold deptMatches at hpm
  rcases List.mem_append.1 hpm with h12 | h3
  · rcases List.mem_append.1 h12 with h1 | h2
    · have := findAllF_forall (deptMarkAt isCircled false)
        (fun pm => isCircled pm.1 = true)
        (fun s a r hh => by obtain ⟨mm, ff⟩ := a; exact deptMarkAt_mark hh) _ _ pm h1
      simp [this]
    · have := findAllF_forall (deptMarkAt isDigit13 false)
        (fun pm => isDigit13 pm.1 = true)
        (fun s a r hh => by obtain ⟨mm, ff⟩ := a; exact deptMarkAt_mark hh) _ _ pm h2
      simp [this]
  · exact findAllF_forall (deptMarkAt (fun c => isCircled c || isDigit13 c) true)
      (fun pm => (isCircled pm.1 || isDigit13 pm.1) = true)
      (fun s a r hh => by obtain ⟨mm, ff⟩ := a; exact deptMarkAt_mark hh) _ _ pm h3

theorem priMap_mem {p : Char} (h : (isCircled p || isDigit13 p) = true) :
    priMap p = '①' ∨ priMap p = '②' ∨ priMap p = '③' := by
  rcases (by simpa [isCircled, isDigit13, or_assoc] using h :
      p = '①' ∨ p = '②' ∨ p = '③' ∨ p = '1' ∨ p = '2' ∨ p = '3') with
    rfl | rfl | rfl | rfl | rfl | rfl <;> decide

/-- Claim C5: in `parse_departments` the three pattern families are applied
in the fixed order (a) circled marker, (b) ASCII digit 1-3, (c) marker
plus separator punctuation (`deptMatches` is their concatenation in that
order); for each match the FIRST of the 9 committee names contained in
the matched fragment receives the priority and no further names are
tested (`firstDept` is `List.find?`); and the stored value for a
committee is always the LAST assignment in that concatenated match list
(later-applied pattern families overwrite earlier assignments).  The
concrete conjuncts show a later family overwriting an earlier one, and
first-containing-name-wins within one fragment. -/
theorem c5_overwrite (dept_text : List Char) (d : Dept) :
    ((parse_departments dept_text).get d =
      match lastAssign (deptAssignments (normalize_fullwidth_to_halfwidth dept_text)) d with
      | some p => [p]
      | none => []) ∧
    (parse_departments (("①会計 2会計").toList)).get .«会計» = ['②'] ∧
    (parse_departments (("①会計書記").toList)).get .«会計» = ['①'] ∧
    (parse_departments (("①会計書記").toList)).get .«書記» = [] :=
  ⟨parse_departments_get dept_text d, by decide, by decide, by decide⟩

/-- Claim C3: `parse_departments` returns a map whose key set is exactly
the 9 known committee names (structurally: `DeptMap` has exactly those 9
fields, totalized by `DeptMap.get`), and every stored value is one of
`①`, `②`, `③` or the empty string; numeral markers are normalized by
`priMap` before storage, so no numeral ever appears in a stored value. -/
theorem c3_priority_values (text : List Char) (d : Dept) :
    (parse_departments text).get d = [] ∨ (parse_departments text).get d = ['①'] ∨
    (parse_departments text).get d = ['②'] ∨ (parse_departments text).get d = ['③'] := by
  rw [parse_departments_get]
  cases hL : lastAssign (deptAssignments (normalize_fullwidth_to_halfwidth text)) d with
  | none => exact Or.inl rfl
  | some p =>
    have hmem := lastAssign_mem hL
    obtain ⟨pm, hpm, hA⟩ := List.mem_filterMap.1 hmem
    have hp : p = priMap pm.1 := by
      unfold assignOf at hA
      cases hF : firstDept pm.2 with
      | none => rw [hF] at hA; simp at hA
      | some dd =>
        rw [hF] at hA
        simp only [Option.map] at hA
        have h1 := Option.some.inj hA
        rw [Prod.ext_iff] at h1
        exact h1.2.symm
    have hc := deptMatches_mark _ pm hpm
    rcases priMap_mem hc with h | h | h <;> rw [hp, h] <;> simp

/- ### Lemmas: the group-marker matcher and segmentation -/

theorem drop_takeWhile_length (p : Char → Bool) (s : List Char) :
    s.drop (s.takeWhile p).length = s.dropWhile p := by
  induction s with
  | nil => rfl
  | cons c t ih => by_cases h : p c <;> simp [List.takeWhile_cons, List.dropWhile_cons, h, ih]

theorem groupAnchorAt_some {s d : List Char} {L : Nat}
    (h : groupAnchorAt s = some (d, L)) :
    ∃ w t, s = d ++ (w ++ '班' :: t) ∧ d ≠ [] ∧ (∀ c ∈ d, isPyDigit c = true) ∧
      (∀ c ∈ w, isPySpace c = true) ∧ L = d.length + w.length + 1 := by
  simp only [groupAnchorAt] at h
  rw [drop_takeWhile_length] at h
  by_cases hE : (s.takeWhile isPyDigit).isEmpty
  · rw [if_pos hE] at h; exact absurd h (by simp)
  · rw [if_neg hE] at h
    rw [drop_takeWhile_length] at h
    cases hM : (s.dropWhile isPyDigit).dropWhile isPySpace with
    | nil => rw [hM] at h; exact absurd h (by simp)
    | cons c rest =>
      rw [hM] at h
      rw [List.head?_cons] at h
      by_cases hc : c = '班'
      · subst hc
        rw [if_pos rfl] at h
        obtain ⟨hd, hL⟩ : s.takeWhile isPyDigit = d ∧
            (s.takeWhile isPyDigit).length +
              ((s.dropWhile isPyDigit).takeWhile isPySpace).length + 1 = L := by
          have := Option.some.inj h
          exact ⟨congrArg Prod.fst this, congrArg Prod.snd this⟩
        refine ⟨(s.dropWhile isPyDigit).takeWhile isPySpace, rest, ?_, ?_, ?_, ?_, ?_⟩
        · conv_lhs => rw [← List.takeWhile_append_dropWhile isPyDigit s]
          rw [hd]
          congr 1
          conv_lhs => rw [← List.takeWhile_append_dropWhile isPySpace (s.dropWhile isPyDigit)]
          rw [hM]
        · intro hnil
          rw [hd, hnil] at hE
          exact hE rfl
        · intro x hx; rw [← hd] at hx; exact List.mem_takeWhile_imp hx
        · intro x hx; exact List.mem_takeWhile_imp hx
        · rw [← hd, ← hL]
      · rw [if_neg (by simpa using hc)] at h; exact absurd h (by simp)

theorem groupAnchorAt_run {d w : List Char} (t : List Char) (hd : d ≠ [])
    (hdd : ∀ c ∈ d, isPyDigit c = true) (hw : ∀ c ∈ w, isPySpace c = true) :
    groupAnchorAt (d ++ (w ++ '班' :: t)) = some (d, d.length + w.length + 1) := by
  have h1 : (d ++ (w ++ '班' :: t)).takeWhile isPyDigit = d := by
    cases w with
    | nil => exact takeWhile_run hdd (by decide) t
    | cons wh wt =>
      exact takeWhile_run hdd (space_not_digit (hw wh (by simp))) (wt ++ '班' :: t)
  have h2 : (d ++ (w ++ '班' :: t)).drop d.length = w ++ '班' :: t := List.drop_left d _
  have h3 : (w ++ '班' :: t).takeWhile isPySpace = w := takeWhile_run hw (by decide) t
  have h4 : (w ++ '班' :: t).drop w.length = '班' :: t := List.drop_left w _
  have hne : d.isEmpty = false := by
    cases d with
    | nil => exact absurd rfl hd
    | cons _ _ => rfl
  simp only [groupAnchorAt]
  rw [h1, h2, h3, h4, hne, List.head?_cons]
  simp

theorem searchFirstF_pos {α : Type} (f : List Char → Option α) (fuel : Nat) (s : List Char)
    {r : α} (h : f s = some r) : searchFirstF f fuel s = some r := by
  cases fuel with
  | zero => simpa [searchFirstF] using h
  | succ n => simp [searchFirstF, h]

theorem reverse_dropWhile_append (q : Char → Bool) (a b : List Char) (c : Char)
    (hc : q c = false) :
    ∃ b2, ((a ++ c :: b).reverse.dropWhile q).reverse = a ++ c :: b2 := by
  rw [List.reverse_append, List.reverse_cons, List.append_assoc]
  rw [show ([c] ++ a.reverse) = c :: a.reverse from rfl]
  rw [dropWhile_append_stop _ hc]
  refine ⟨(b.reverse.dropWhile q).reverse, ?_⟩
  rw [List.reverse_append, List.reverse_cons]
  simp

theorem pyStrip_anchor {d w : List Char} (t : List Char) (hd : d ≠ [])
    (hdd : ∀ c ∈ d, isPyDigit c = true) :
    ∃ t2, pyStrip (d ++ (w ++ '班' :: t)) = d ++ (w ++ '班' :: t2) := by
  obtain ⟨c0, d', rfl⟩ : ∃ c0 d', d = c0 :: d' := by
    cases d with
    | nil => exact absurd rfl hd
    | cons c0 d' => exact ⟨c0, d', rfl⟩
  have h0 : isPySpace c0 = false := digit_not_space (hdd c0 (by simp))
  unfold pyStrip
  rw [show ((c0 :: d') ++ (w ++ '班' :: t)).dropWhile isPySpace =
      (c0 :: d') ++ (w ++ '班' :: t) from by simp [List.dropWhile_cons, h0]]
  rw [show (c0 :: d') ++ (w ++ '班' :: t) = ((c0 :: d') ++ w) ++ '班' :: t by
    rw [List.append_assoc]]
  obtain ⟨t2, ht2⟩ := reverse_dropWhile_append isPySpace ((c0 :: d') ++ w) t '班' (by decide)
  rw [ht2, List.append_assoc]
  exact ⟨t2, rfl⟩

theorem normalize_append_han (d w t : List Char) :
    normalize_fullwidth_to_halfwidth (d ++ (w ++ '班' :: t)) =
      normalize_fullwidth_to_halfwidth d ++
        (normalize_fullwidth_to_halfwidth w ++
          '班' :: normalize_fullwidth_to_halfwidth t) := by
  simp [normalize_fullwidth_to_halfwidth]
  decide

theorem parse_han_of_anchor {d w : List Char} (t : List Char) (hd : d ≠ [])
    (hdd : ∀ c ∈ d, isPyDigit c = true) (hw : ∀ c ∈ w, isPySpace c = true) :
    («parse_班長_entry» (d ++ (w ++ '班' :: t))).«班» =
      normalize_fullwidth_to_halfwidth d ++ ['班'] := by
  obtain ⟨t2, hstrip⟩ := pyStrip_anchor (w := w) t hd hdd
  have hsearch : groupSearch
      (normalize_fullwidth_to_halfwidth (pyStrip (d ++ (w ++ '班' :: t)))) =
      some (normalize_fullwidth_to_halfwidth d) := by
    rw [hstrip, normalize_append_han]
    unfold groupSearch
    apply searchFirstF_pos
    rw [groupAnchorAt_run _ ?_ ?_ ?_]
    · rfl
    · simpa [normalize_fullwidth_to_halfwidth] using hd
    · intro c hc
      obtain ⟨c0, hc0, rfl⟩ := List.mem_map.1 hc
      rw [normalizeChar_digit]
      exact hdd c0 hc0
    · intro c hc
      obtain ⟨c0, hc0, rfl⟩ := List.mem_map.1 hc
      rw [normalizeChar_space]
      exact hw c0 hc0
  show finz (match groupSearch
      (normalize_fullwidth_to_halfwidth (pyStrip (d ++ (w ++ '班' :: t)))) with
    | some dd => dd ++ ['班']
    | none => []) = _
  rw [hsearch]
  show finz (normalize_fullwidth_to_halfwidth d ++ ['班']) = _
  unfold finz
  rw [if_neg (by simp)]

theorem findAnchorF_zero (s : List Char) :
    findAnchorF 0 s = if (groupAnchorAt s).isSome then some ([], s) else none := rfl

theorem findAnchorF_succ_nil (n : Nat) : findAnchorF (n + 1) [] = none := rfl

theorem findAnchorF_succ_cons (n : Nat) (c : Char) (t : List Char) :
    findAnchorF (n + 1) (c :: t) =
      if (groupAnchorAt (c :: t)).isSome then some ([], c :: t)
      else
        match findAnchorF n t with
        | some (p, suf) => some (c :: p, suf)
        | none => none := rfl

theorem findAnchorF_some : ∀ {fuel : Nat} {s p suf : List Char},
    findAnchorF fuel s = some (p, suf) → s = p ++ suf ∧ (groupAnchorAt suf).isSome := by
  intro fuel
  induction fuel with
  | zero =>
    intro s p suf h
    rw [findAnchorF_zero] at h
    by_cases hG : (groupAnchorAt s).isSome
    · rw [if_pos hG] at h
      obtain ⟨h1, h2⟩ : ([] : List Char) = p ∧ s = suf := by
        have := Option.some.inj h
        exact ⟨congrArg Prod.fst this, congrArg Prod.snd this⟩
      subst h1; subst h2
      exact ⟨rfl, hG⟩
    · rw [if_neg hG] at h; exact absurd h (by simp)
  | succ n ih =>
    intro s p suf h
    cases s with
    | nil => rw [findAnchorF_succ_nil] at h; exact absurd h (by simp)
    | cons c t =>
      rw [findAnchorF_succ_cons] at h
      by_cases hG : (groupAnchorAt (c :: t)).isSome
      · rw [if_pos hG] at h
        obtain ⟨h1, h2⟩ : ([] : List Char) = p ∧ c :: t = suf := by
          have := Option.some.inj h
          exact ⟨congrArg Prod.fst this, congrArg Prod.snd this⟩
        subst h1; subst h2
        exact ⟨rfl, hG⟩
      · rw [if_neg hG] at h
        cases hF : findAnchorF n t with
        | none => rw [hF] at h; exact absurd h (by simp)
        | some pr =>
          obtain ⟨p', suf'⟩ := pr
          rw [hF] at h
          obtain ⟨h1, h2⟩ : c :: p' = p ∧ suf' = suf := by
            have := Option.some.inj h
            exact ⟨congrArg Prod.fst this, congrArg Prod.snd this⟩
          subst h1; subst h2
          obtain ⟨ht, hS⟩ := ih hF
          exact ⟨by rw [ht, List.cons_append], hS⟩

theorem anchorSpansAux_zero (t d : List Char) (L : Nat) :
    anchorSpansAux 0 t d L = [(d, t)] := rfl

theorem anchorSpansAux_succ (n : Nat) (t d : List Char) (L : Nat) :
    anchorSpansAux (n + 1) t d L =
      match findAnchorF (t.drop L).length (t.drop L) with
      | none => [(d, t)]
      | some (p, suf) =>
        match groupAnchorAt suf with
        | some (d2, L2) => (d, t.take (L + p.length)) :: anchorSpansAux n suf d2 L2
        | none => [(d, t)] := rfl

theorem anchorSpansAux_forms : ∀ (fuel : Nat) (t d : List Char) (L : Nat),
    groupAnchorAt t = some (d, L) → ∀ x ∈ anchorSpansAux fuel t d L, AnchorForm x := by
  intro fuel
  induction fuel with
  | zero =>
    intro t d L h x hx
    rw [anchorSpansAux_zero] at hx
    rw [List.mem_singleton] at hx
    subst hx
    obtain ⟨w, tt, hs, hd, hdd, hw, -⟩ := groupAnchorAt_some h
    exact ⟨w, tt, hs, hd, hdd, hw⟩
  | succ n ih =>
    intro t d L h x hx
    rw [anchorSpansAux_succ] at hx
    cases hFnd : findAnchorF (t.drop L).length (t.drop L) with
    | none =>
      simp only [hFnd, List.mem_singleton] at hx
      subst hx
      obtain ⟨w, tt, hs, hd, hdd, hw, -⟩ := groupAnchorAt_some h
      exact ⟨w, tt, hs, hd, hdd, hw⟩
    | some pr =>
      obtain ⟨p, suf⟩ := pr
      simp only [hFnd] at hx
      obtain ⟨-, hGs⟩ := findAnchorF_some hFnd
      cases hG2 : groupAnchorAt suf with
      | none => rw [hG2] at hGs; exact absurd hGs (by simp)
      | some pr2 =>
        obtain ⟨d2, L2⟩ := pr2
        simp only [hG2] at hx
        rcases (by simpa using hx :
            x = (d, t.take (L + p.length)) ∨ x ∈ anchorSpansAux n suf d2 L2) with rfl | hmem
        · obtain ⟨w, tt, hs, hd, hdd, hw, hL⟩ := groupAnchorAt_some h
          refine ⟨w, tt.take (L + p.length - (d.length + w.length) - 1), ?_, hd, hdd, hw⟩
          show t.take (L + p.length) = _
          rw [hs, ← List.append_assoc]
          rw [take_append_cons (d ++ w) '班' tt
            (by rw [hL, List.length_append]; omega)]
          rw [List.append_assoc]
          simp [List.length_append]
        · exact ih suf d2 L2 hG2 x hmem

theorem anchorSpans_forms (s : List Char) : ∀ x ∈ anchorSpans s, AnchorForm x := by
  intro x hx
  unfold anchorSpans at hx
  cases hF : findAnchorF s.length s with
  | none => rw [hF] at hx; exact absurd hx (by simp)
  | some pr =>
    obtain ⟨p, suf⟩ := pr
    simp only [hF] at hx
    obtain ⟨-, hGs⟩ := findAnchorF_some hF
    cases hG : groupAnchorAt suf with
    | none => rw [hG] at hGs; exact absurd hGs (by simp)
    | some pr2 =>
      obtain ⟨d, L⟩ := pr2
      simp only [hG] at hx
      exact anchorSpansAux_forms _ _ _ _ hG x hx

theorem parse_han_of_form {x : List Char × List Char} (h : AnchorForm x) :
    («parse_班長_entry» x.2).«班» = normalize_fullwidth_to_halfwidth x.1 ++ ['班'] := by
  obtain ⟨w, t, hx2, hd, hdd, hw⟩ := h
  rw [hx2]
  exact parse_han_of_anchor t hd hdd hw

theorem han_append_ne_null (y : List Char) : y ++ ['班'] ≠ nullStr := by
  intro h
  have h2 := congrArg List.getLast? h
  rw [List.getLast?_concat] at h2
  exact absurd h2 (by decide)

theorem parse_text_file_eq (text : List Char) :
    parse_text_file text =
      (anchorSpans (combineStream text)).map (fun x => «parse_班長_entry» x.2) := by
  show ((anchorSpans (combineStream text)).map
      (fun x => «parse_班長_entry» x.2)).filter (fun r => r.«班» != nullStr) = _
  rw [List.filter_eq_self]
  intro r hr
  obtain ⟨x, hx, rfl⟩ := List.mem_map.1 hr
  rw [bne_iff_ne, parse_han_of_form (anchorSpans_forms _ x hx)]
  exact han_append_ne_null _

/-- Claim C10: the drop branch of the segmenter is unreachable — every
span starts at its own anchor match of `(\d+)\s*班`, so the group-id
search inside `parse_班長_entry` always succeeds on that span; the
emitted record count equals the number of anchor matches in the
page-joined stream and no record with group id `'null'` is ever
produced. -/
theorem c10_no_drop (text : List Char) :
    (parse_text_file text).length = (anchorSpans (combineStream text)).length ∧
    ∀ r ∈ parse_text_file text, r.«班» ≠ nullStr := by
  constructor
  · rw [parse_text_file_eq, List.length_map]
  · intro r hr
    rw [parse_text_file_eq] at hr
    obtain ⟨x, hx, rfl⟩ := List.mem_map.1 hr
    rw [parse_han_of_form (anchorSpans_forms _ x hx)]
    exact han_append_ne_null _

/-- Claim C2: for a document whose page-joined stream contains exactly
`k` group markers in ASCII-digit form, `parse_text_file` yields exactly
`k` records whose group ids equal the markers' digit groups (canonicalized
as `<digits>班`) in discovery order; nothing is merged or deduplicated —
each anchor yields its own record even when two anchors have the same
digits (no distinctness hypothesis is needed). -/
theorem c2_segmentation (text : List Char) (k : Nat)
    (hk : (anchorDigits (combineStream text)).length = k)
    (hascii : ∀ d ∈ anchorDigits (combineStream text), ∀ c ∈ d, isAsciiDigit c = true) :
    (parse_text_file text).length = k ∧
    (parse_text_file text).map (fun r => r.«班») =
      (anchorDigits (combineStream text)).map (fun d => d ++ ['班']) := by
  have hmain : (parse_text_file text).map (fun r => r.«班») =
      (anchorDigits (combineStream text)).map (fun d => d ++ ['班']) := by
    rw [parse_text_file_eq, List.map_map]
    unfold anchorDigits
    rw [List.map_map]
    apply List.map_congr_left
    intro x hx
    show («parse_班長_entry» x.2).«班» = x.1 ++ ['班']
    rw [parse_han_of_form (anchorSpans_forms _ x hx)]
    congr 1
    have hx1 : x.1 ∈ anchorDigits (combineStream text) :=
      List.mem_map_of_mem Prod.fst hx
    have hall : ∀ c ∈ x.1, normalizeChar c = c := fun c hc =>
      normalizeChar_ascii (hascii _ hx1 c hc)
    calc x.1.map normalizeChar = x.1.map id := List.map_congr_left (by simpa using hall)
    _ = x.1 := List.map_id _
  refine ⟨?_, hmain⟩
  have hlen := congrArg List.length hmain
  rw [List.length_map, List.length_map] at hlen
  rw [hlen, hk]

/-- Witness for C2 at the spec's duplicate-marker document
`"3班 A 3班 B"`: two records, both with group id `3班`, no merge. -/
theorem c2_segmentation_witness :
    (parse_text_file (("3班 A 3班 B").toList)).length = 2 ∧
    (parse_text_file (("3班 A 3班 B").toList)).map (fun r => r.«班») =
      [("3班").toList, ("3班").toList] := by
  have h := c2_segmentation (("3班 A 3班 B").toList) 2 (by decide) (by decide)
  refine ⟨h.1, ?_⟩
  rw [h.2]
  decide

/- ### Lemmas: the name extractor -/

theorem searchFirstF_prop {α : Type} (f : List Char → Option α) (P : α → Prop)
    (hf : ∀ s r, f s = some r → P r) :
    ∀ fuel s r, searchFirstF f fuel s = some r → P r := by
  intro fuel
  induction fuel with
  | zero => intro s r h; exact hf s r h
  | succ n ih =>
    intro s r h
    cases hfs : f s with
    | some r' =>
      rw [searchFirstF_pos f (n + 1) s hfs] at h
      exact Option.some.inj h ▸ hf s r' hfs
    | none =>
      cases s with
      | nil =>
        rw [show searchFirstF f (n + 1) ([] : List Char) = none by
          simp [searchFirstF, hfs]] at h
        exact Option.noConfusion h
      | cons c t =>
        rw [show searchFirstF f (n + 1) (c :: t) = searchFirstF f n t by
          simp [searchFirstF, hfs]] at h
        exact ih t r h

theorem nameMatchAt_ne_nil {s n : List Char} (h : nameMatchAt s = some n) : n ≠ [] := by
  simp only [nameMatchAt] at h
  repeat' split at h
  any_goals exact Option.noConfusion h
  all_goals (
    rename_i htok hor
    rw [← Option.some.inj h]
    intro hnil
    apply htok
    rw [List.isEmpty_iff]
    first
      | exact hnil
      | exact (List.append_eq_nil.1 (List.append_eq_nil.1 hnil).1).1)

/-- Claim C9 counterexample: the katakana-only candidate `アイウ` consists
solely of phonetic-syllabary characters, yet the extractor KEEPS it as
the name — the filter at line 207 covers only hiragana (`[ぁ-ん\s]`), so
the claim's "phonetic-syllabary characters" (which include katakana) is
too broad. -/
theorem c9_counterexample :
    («parse_班長_entry» (("2班 アイウ").toList)).«氏名» = ("アイウ").toList ∧
    ∀ c ∈ ("アイウ").toList, isPhoneticKana c = true := by
  constructor
  · decide
  · decide

/-- Claim C9 (amended): whenever the name search on the normalized,
stripped span returns a candidate, that candidate is discarded (the name
falls back to the sentinel) exactly when it consists solely of HIRAGANA
(`ぁ`-`ん`) characters and whitespace, and is kept verbatim otherwise. -/
theorem c9_amended (t0 n : List Char)
    (h : nameSearch (normalize_fullwidth_to_halfwidth (pyStrip t0)) = some n) :
    («parse_班長_entry» t0).«氏名» = if isHiraSpace n then nullStr else n := by
  have hne : n ≠ [] :=
    searchFirstF_prop nameMatchAt (fun x => x ≠ [])
      (fun s r hr => nameMatchAt_ne_nil hr) _ _ n h
  show finz (match nameSearch (normalize_fullwidth_to_halfwidth (pyStrip t0)) with
    | some nn => if isHiraSpace nn then [] else nn
    | none => []) = _
  rw [h]
  by_cases hh : isHiraSpace n
  · rw [if_pos hh]
    show finz (if isHiraSpace n then [] else n) = _
    rw [if_pos hh]
    rfl
  · rw [if_neg hh]
    show finz (if isHiraSpace n then [] else n) = _
    rw [if_neg hh]
    unfold finz
    rw [if_neg (by simpa [List.isEmpty_iff] using hne)]

/-- Witness for C9 (amended): a kanji name is kept, a hiragana-only
candidate is replaced by the sentinel. -/
theorem c9_amended_witness :
    («parse_班長_entry» (("4班 山田 太郎").toList)).«氏名» = ("山田 太郎").toList ∧
    («parse_班長_entry» (("3班 やまだ").toList)).«氏名» = nullStr := by
  constructor
  · have h := c9_amended (("4班 山田 太郎").toList) (("山田 太郎").toList) (by decide)
    rw [h]
    decide
  · have h := c9_amended (("3班 やまだ").toList) (("やまだ").toList) (by decide)
    rw [h]
    decide

/- ### Lemmas: the entry phone matcher's separator class -/

theorem findAllF_zero' {α : Type} (f : List Char → Option (α × List Char)) (s : List Char) :
    findAllF f 0 s =
      match f s with
      | some (a, _) => [a]
      | none => [] := rfl

theorem findAllF_step_none {α : Type} (f : List Char → Option (α × List Char)) (n : Nat)
    (c : Char) (t : List Char) (hf : f (c :: t) = none) :
    findAllF f (n + 1) (c :: t) = findAllF f n t := by
  rw [show findAllF f (n + 1) (c :: t) =
      (match f (c :: t) with
        | some (a, rest) => a :: findAllF f n rest
        | none => findAllF f n t) from rfl]
  rw [hf]

/-- A candidate phone string whose separator slot holds an arbitrary
character is rejected by the entry-level phone scan whenever that
character is outside the separator class `[-ー一=]`. -/
theorem telCand_no_match (a : Char) (ha : telSepEntry a = false) :
    telFindall telSepEntry (telCand a) = [] := by
  show findAllF (telMatchAt telSepEntry) 12 (telCand a) = []
  by_cases hp1 : a = '('
  · subst hp1; decide
  by_cases hp2 : a = '（'
  · subst hp2; decide
  by_cases hd : isPyDigit a = true
  · simp [telCand, findAllF_step_none, findAllF_zero', telMatchAt, telTail,
      List.takeWhile_cons, hd, hp1, hp2, ha,
      show isPyDigit '0' = true from by decide, show isPyDigit '4' = true from by decide,
      show isPyDigit '9' = true from by decide, show isPyDigit '8' = true from by decide,
      show isPyDigit '5' = true from by decide, show isPyDigit '2' = true from by decide,
      show isPyDigit '-' = false from by decide, show telSepEntry '-' = true from by decide]
  · have hd' : isPyDigit a = false := by simpa using hd
    simp [telCand, findAllF_step_none, findAllF_zero', telMatchAt, telTail,
      List.takeWhile_cons, hd', hp1, hp2, ha,
      show isPyDigit '0' = true from by decide, show isPyDigit '4' = true from by decide,
      show isPyDigit '9' = true from by decide, show isPyDigit '8' = true from by decide,
      show isPyDigit '5' = true from by decide, show isPyDigit '2' = true from by decide,
      show isPyDigit '-' = false from by decide, show telSepEntry '-' = true from by decide]

/-- Claim C8 counterexample: the claim says the phone search accepts
EXACTLY three separator glyphs (`-`, `ー`, `一`), but the class in line
217 is `[-ー一=]`: on an input using `=` as both separators the phone IS
matched (and `=` normalized to a hyphen), so a fourth glyph is
accepted. -/
theorem c8_counterexample :
    («parse_班長_entry» (("1班 X 044=988=4952").toList)).TEL =
      ("044-988-4952").toList := by decide

/-- Claim C8 (amended): the phone-number search of the entry extractor
accepts exactly FOUR OCR-confusable separator glyphs — the half-width
hyphen, the long-vowel mark `ー`, the ideographic numeral `一`, and the
equals sign `=` (the class `telSepEntry`): on the candidate family
`044?988-4952` the scan matches iff the separator slot holds one of the
four; each accepted separator is normalized to a plain half-width hyphen
in the stored TEL value; multiple matches are joined with `、` in order
of appearance (concrete conjunct). -/
theorem c8_amended :
    (∀ a : Char, telFindall telSepEntry (telCand a) ≠ [] ↔ telSepEntry a = true) ∧
    (∀ a : Char, telSepEntry a = true → normHyphenChar a = '-') ∧
    («parse_班長_entry» (("5班 山 044ー988一4952 03=1234=5678").toList)).TEL =
      ("044-988-4952、03-1234-5678").toList := by
  refine ⟨?_, ?_, by decide⟩
  · intro a
    constructor
    · intro hne
      by_contra hns
      exact hne (telCand_no_match a (by simpa using hns))
    · intro hsep
      rcases (by simpa [telSepEntry, or_assoc] using hsep :
          a = '-' ∨ a = 'ー' ∨ a = '一' ∨ a = '=') with rfl | rfl | rfl | rfl <;> decide
  · intro a hsep
    rcases (by simpa [telSepEntry, or_assoc] using hsep :
        a = '-' ∨ a = 'ー' ∨ a = '一' ∨ a = '=') with rfl | rfl | rfl | rfl <;> decide

/-- Witness for C8 (amended) at the concrete fourth glyph `=`. -/
theorem c8_amended_witness :
    (telFindall telSepEntry (telCand '=') ≠ [] ∧ telSepEntry '=' = true) ∧
    normHyphenChar '=' = '-' :=
  ⟨⟨(c8_amended.1 '=').2 (by decide), by decide⟩, c8_amended.2.1 '=' (by decide)⟩
